import Mathlib

/-
Verification development for the ts-binding bidirectional data-shape engine
(src/src/index.ts, src/src/errors.ts, src/src/serialization.ts, src/src/types.ts).

The runtime values flowing through the engine are modelled by `Value`, a deep
embedding of the JSON-like JS values (plus `undefined` for `undefined` and
`jsFunction`, an opaque marker for the one JS function value that the engine's
error path can observe, see `validated`).  A `Bound` (the source's `Bound`
interface) is a pair of functions `transform`/`restore` over `Value`, each
threading a path stack (a `List String`) and failing with `Err`.  Thrown JS
exceptions are modelled by `Except`: `Err.tfail` is the source's
`TransformationError`, `Err.jsErr` a native JS error (`TypeError` etc.) raised
by a built-in rather than by the engine.

Each combinator of the source is one Lean definition of the same name.
-/

namespace TsBinding

/-- JS runtime values in the engine's literal universe: the JSON-like values
(string, number, boolean, null, arrays, string-keyed objects), plus
`undefined`, plus `jsFunction`, an opaque stand-in for the module-level
`object` combinator function which the source's `validated.restore` error path
accidentally closes over (src/src/index.ts line 31). Numbers are modelled as
integers; no claim depends on float arithmetic. -/
inductive Value where
  | str (s : String)
  | num (n : Int)
  | bool (b : Bool)
  | null
  | undefined
  | arr (elems : List Value)
  | obj (fields : List (String × Value))
  | jsFunction

/-- JS `typeof`: note `typeof null` is `"object"` in JS. -/
def jsTypeof : Value → String
  | .str _ => "string"
  | .num _ => "number"
  | .bool _ => "boolean"
  | .null => "object"
  | .undefined => "undefined"
  | .arr _ => "object"
  | .obj _ => "object"
  | .jsFunction => "function"

/-- JS `Array.isArray`. -/
def isArr : Value → Bool
  | .arr _ => true
  | _ => false

/-- Test for the JS `null` value. -/
def isNull : Value → Bool
  | .null => true
  | _ => false

/-- Rendering of a path stack as the `TransformationError.location` trail
(src/src/errors.ts line 5): tags joined by an arrow, terminated by `(!!)`. -/
def render (s : List String) : String :=
  String.intercalate " -> " s ++ "(!!)"

/-- Errors: `tfail` is the source's `TransformationError` (message, rendered
location trail, optional offending value); `jsErr` is a native JS error raised
by a built-in (e.g. `Object.entries(null)` raising `TypeError`), which is not
a `TransformationError`. -/
inductive Err where
  | tfail (message : String) (location : String) (offender : Option Value)
  | jsErr (message : String)

/-- The source's `Bound` interface (src/src/types.ts lines 5-9): a
transform/restore pair threading a path stack, plus the attribute bag of which
the engine only ever reads the `optional` flag. -/
structure Bound where
  transform : Value → List String → Except Err Value
  restore : Value → List String → Except Err Value
  attrs_optional : Bool

/-- Fail-fast left-to-right map, the effect of `Array.prototype.map` with a
callback that can throw. -/
def mapME {α β : Type} (f : α → Except Err β) : List α → Except Err (List β)
  | [] => .ok []
  | a :: as =>
    match f a with
    | .error e => .error e
    | .ok b =>
      match mapME f as with
      | .error e => .error e
      | .ok bs => .ok (b :: bs)

/-- Fail-fast indexed map (for `array.map((e, i) => ...)`), carrying the index
of the first element in `n`. -/
def mapIdxME (f : Nat → Value → Except Err Value) : Nat → List Value → Except Err (List Value)
  | _, [] => .ok []
  | n, a :: as =>
    match f n a with
    | .error e => .error e
    | .ok b =>
      match mapIdxME f (n + 1) as with
      | .error e => .error e
      | .ok bs => .ok (b :: bs)

/-- Pair each list element with its index, starting at `n`. -/
def enumIdx {α : Type} : Nat → List α → List (Nat × α)
  | _, [] => []
  | n, a :: as => (n, a) :: enumIdx (n + 1) as

/-- JS property read `v[k]`: objects look the key up (absent gives
`undefined`); arrays and strings answer numeric indices; everything else gives
`undefined`. -/
def jsGet : Value → String → Value
  | .obj fs, k => ((fs.lookup k).getD .undefined)
  | .arr xs, k =>
    match k.toNat? with
    | some i => (xs.get? i).getD .undefined
    | none => .undefined
  | .str s, k =>
    match k.toNat? with
    | some i =>
      match s.toList.get? i with
      | some c => .str (String.singleton c)
      | none => .undefined
    | none => .undefined
  | _, _ => .undefined

/-- JS `k in v` for the object case (the engine only applies it after the
object shape check, so `v` is a non-null non-array object there): a key
present with value `undefined` still counts as present. -/
def jsHas : Value → String → Bool
  | .obj fs, k => (fs.lookup k).isSome
  | _, _ => false

/-- JS `Object.entries`: own enumerable entries in order.  Strings enumerate
their character positions; numbers, booleans and functions have none; `null`
and `undefined` raise a native `TypeError` (not a `TransformationError`). -/
def jsEntries : Value → Except Err (List (String × Value))
  | .obj fs => .ok fs
  | .arr xs => .ok ((enumIdx 0 xs).map (fun p => (toString p.1, p.2)))
  | .str s => .ok ((enumIdx 0 s.toList).map (fun p => (toString p.1, Value.str (String.singleton p.2))))
  | .num _ => .ok []
  | .bool _ => .ok []
  | .jsFunction => .ok []
  | .null => .error (.jsErr "Cannot convert undefined or null to object")
  | .undefined => .error (.jsErr "Cannot convert undefined or null to object")

mutual

/-- JS `ToPropertyKey` (string coercion applied by `Object.fromEntries` to the
keys it is given): strings pass through, other primitives print as in JS,
arrays join their elements with commas, plain objects print as
`[object Object]`. -/
def jsToPropKey : Value → String
  | .str s => s
  | .num n => toString n
  | .bool b => cond b "true" "false"
  | .null => "null"
  | .undefined => "undefined"
  | .jsFunction => "function"
  | .obj _ => "[object Object]"
  | .arr xs => jsToPropKeyList xs

/-- Elements of an array joined with commas, as `Array.prototype.toString`. -/
def jsToPropKeyList : List Value → String
  | [] => ""
  | [v] => jsToPropKeyEntry v
  | v :: rest => jsToPropKeyEntry v ++ "," ++ jsToPropKeyList rest

/-- One array element inside `Array.prototype.toString`: `null` and
`undefined` print as the empty string there. -/
def jsToPropKeyEntry : Value → String
  | .null => ""
  | .undefined => ""
  | .str s => s
  | .num n => toString n
  | .bool b => cond b "true" "false"
  | .jsFunction => "function"
  | .obj _ => "[object Object]"
  | .arr xs => jsToPropKeyList xs

end

/-- One assignment `acc[k] = v` on a JS object represented as an ordered
association list: an existing key keeps its position and gets the new value, a
new key is appended. -/
def upsert : List (String × Value) → String → Value → List (String × Value)
  | [], k, v => [(k, v)]
  | (k', v') :: rest, k, v =>
    if k' == k then (k', v) :: rest else (k', v') :: upsert rest k v

/-- JS `Object.fromEntries` on string keys: sequential assignment into a fresh
object (first occurrence fixes the position, last occurrence the value). -/
def fromEntries (l : List (String × Value)) : List (String × Value) :=
  l.foldl (fun acc p => upsert acc p.1 p.2) []

/-- Source `any()` (src/src/index.ts lines 9-14): the unchecked identity
contract. -/
def any : Bound where
  transform := fun v _ => .ok v
  restore := fun v _ => .ok v
  attrs_optional := false

/-- Source `validated(validator, reason)` (src/src/index.ts lines 17-37).
`transform` checks the predicate on its argument and, on failure, raises a
`TransformationError` whose message is `reason` of that argument and whose
offender is the argument.  In `restore` the source's error path reads the
identifier `object`, which in that scope is not the `json` parameter but the
hoisted module-level `object` combinator function: the message becomes
`reason` applied to that function value and the recorded offender is the
function, modelled by the `Value.jsFunction` marker. -/
def validated (validator : Value → Bool) (reason : Value → String) : Bound where
  transform := fun v s =>
    if validator v then .ok v
    else .error (.tfail (reason v) (render s) (some v))
  restore := fun v s =>
    if validator v then .ok v
    else .error (.tfail (reason Value.jsFunction) (render s) (some Value.jsFunction))
  attrs_optional := false

/-- Source `stackwrap` (src/src/errors.ts lines 23-34): push a fixed label,
delegate.  The wrapper object carries no attribute bag, so the wrapped
contract never counts as optional. -/
def stackwrap (upstream : Bound) (thisMessage : String) : Bound where
  transform := fun v s => upstream.transform v (s ++ [thisMessage])
  restore := fun v s => upstream.restore v (s ++ [thisMessage])
  attrs_optional := false

/-- Source `optional(schema)` (src/src/index.ts lines 39-51): `undefined`
passes straight through in both directions; sets the `optional: true`
attribute. -/
def optional (schema : Bound) : Bound where
  transform := fun v s =>
    match v with
    | .undefined => .ok .undefined
    | _ => schema.transform v s
  restore := fun v s =>
    match v with
    | .undefined => .ok .undefined
    | _ => schema.restore v s
  attrs_optional := true

/-- Source `string()` (src/src/index.ts lines 59-62). -/
def string : Bound :=
  stackwrap
    (validated (fun v => jsTypeof v == "string")
      (fun v => "expected 'string', received '" ++ jsTypeof v ++ "'"))
    "string"

/-- Source `number()` (src/src/index.ts lines 65-68). -/
def number : Bound :=
  stackwrap
    (validated (fun v => jsTypeof v == "number")
      (fun v => "expected 'number', received '" ++ jsTypeof v ++ "'"))
    "number"

/-- Source `boolean()` (src/src/index.ts lines 71-74). -/
def boolean : Bound :=
  stackwrap
    (validated (fun v => jsTypeof v == "boolean")
      (fun v => "expected 'boolean', received '" ++ jsTypeof v ++ "'"))
    "boolean"

/-- Source `nil()` (src/src/index.ts lines 77-80): predicate is `v === null`;
the message prints JS `typeof` of the received value. -/
def nil : Bound :=
  stackwrap
    (validated (fun v => isNull v)
      (fun v => "expected 'null', received '" ++ jsTypeof v ++ "'"))
    "nil"

/-- Source `record(keySchema, valueSchema)` (src/src/index.ts lines 87-117):
iterate `Object.entries` of the input with no shape validation of its own,
put each key (as a string value) through the key contract and each value
through the value contract, and rebuild with `Object.fromEntries` (whose key
coercion is `jsToPropKey`). -/
def record (keySchema valueSchema : Bound) : Bound where
  transform := fun v s =>
    match jsEntries v with
    | .error e => .error e
    | .ok ents =>
      match mapME (fun p =>
          match keySchema.transform (.str p.1) (s ++ ["record:transform['key of " ++ p.1 ++ "']"]) with
          | .error e => .error e
          | .ok kv =>
            match valueSchema.transform p.2 (s ++ ["record:transform[value of '" ++ p.1 ++ "']"]) with
            | .error e => .error e
            | .ok vv => .ok (jsToPropKey kv, vv)) ents with
      | .error e => .error e
      | .ok ps => .ok (.obj (fromEntries ps))
  restore := fun v s =>
    match jsEntries v with
    | .error e => .error e
    | .ok ents =>
      match mapME (fun p =>
          match keySchema.restore (.str p.1) (s ++ ["record:restore['key of " ++ p.1 ++ "']"]) with
          | .error e => .error e
          | .ok kv =>
            match valueSchema.restore p.2 (s ++ ["record:restore[value of '" ++ p.1 ++ "']"]) with
            | .error e => .error e
            | .ok vv => .ok (jsToPropKey kv, vv)) ents with
      | .error e => .error e
      | .ok ps => .ok (.obj (fromEntries ps))
  attrs_optional := false

/-- Source `array(itemSchema)` (src/src/index.ts lines 124-137): `transform`
maps the item contract over a typed array (a non-array input would crash in
JS, modelled as a native error); `restore` first checks `Array.isArray` and
raises `TransformationError('Not an array')` otherwise, then maps the item
contract index-tagged. -/
def array (itemSchema : Bound) : Bound where
  transform := fun v s =>
    match v with
    | .arr xs =>
      match mapIdxME (fun i e => itemSchema.transform e (s ++ ["array:transform[" ++ toString i ++ "]"])) 0 xs with
      | .error e => .error e
      | .ok ys => .ok (.arr ys)
    | _ => .error (.jsErr "array.map is not a function")
  restore := fun v s =>
    match v with
    | .arr xs =>
      match mapIdxME (fun i e => itemSchema.restore e (s ++ ["array:restore[" ++ toString i ++ "]"])) 0 xs with
      | .error e => .error e
      | .ok ys => .ok (.arr ys)
    | _ => .error (.tfail "Not an array" (render (s ++ ["array:restore"])) none)
  attrs_optional := false

/-- Container shape test of the source's object `restore` (src/src/index.ts
line 156): `typeof json !== 'object' || Array.isArray(json) || json === null`. -/
def shapeBad (v : Value) : Bool :=
  !(jsTypeof v == "object") || isArr v || isNull v

/-- What the shape error reports as the observed kind (src/src/index.ts line
157): `'array'` for arrays, otherwise JS `typeof` (so `'object'` for `null`). -/
def observedKind (v : Value) : String :=
  if isArr v then "array" else jsTypeof v

/-- First declared key that is absent from the literal and whose child
contract does not carry `optional: true` (the loop of src/src/index.ts lines
161-165). -/
def requiredMissing (fields : List (String × Bound)) (v : Value) : Option String :=
  match fields.find? (fun p => !(jsHas v p.1) && !p.2.attrs_optional) with
  | some p => some p.1
  | none => none

/-- The per-key transform pass of the object combinator (src/src/index.ts
lines 148-154): each declared key's contract applied to the input's property,
key-tagged. -/
def objectTransformFields (fields : List (String × Bound)) (v : Value) (s : List String) :
    Except Err (List (String × Value)) :=
  mapME (fun p =>
    match p.2.transform (jsGet v p.1) (s ++ ["object:transform['" ++ p.1 ++ "']"]) with
    | .error e => .error e
    | .ok r => .ok (p.1, r)) fields

/-- The per-key restore pass of the object combinator (src/src/index.ts lines
167-171). -/
def objectRestoreFields (fields : List (String × Bound)) (v : Value) (s : List String) :
    Except Err (List (String × Value)) :=
  mapME (fun p =>
    match p.2.restore (jsGet v p.1) (s ++ ["object:restore['" ++ p.1 ++ "']"]) with
    | .error e => .error e
    | .ok r => .ok (p.1, r)) fields

/-- Source `object(schemaObject)` (src/src/index.ts lines 144-174):
`transform` rebuilds the literal from the declared keys only; `restore` first
checks the container shape, then enforces required keys, then restores each
declared key.  Both shape and missing-key errors are tagged `object:transform`
in the source, even in `restore`. -/
def object (fields : List (String × Bound)) : Bound where
  transform := fun v s =>
    match objectTransformFields fields v s with
    | .error e => .error e
    | .ok ps => .ok (.obj (fromEntries ps))
  restore := fun v s =>
    if shapeBad v then
      .error (.tfail ("Not an object. Expected 'object', got '" ++ observedKind v ++ "'")
        (render (s ++ ["object:transform"])) none)
    else
      match requiredMissing fields v with
      | some k =>
        .error (.tfail ("Missing required object key '" ++ k ++ "'")
          (render (s ++ ["object:transform"])) none)
      | none =>
        match objectRestoreFields fields v s with
        | .error e => .error e
        | .ok ps => .ok (.obj (fromEntries ps))
  attrs_optional := false

/-- First discriminator (in declaration order, indices from `n`) whose
predicate accepts the value, together with its index and contract.  The
source's discriminators are functions returning a contract or the `false`
sentinel (src/src/index.ts line 181); the repository always builds them as
`v => condition(v) && contract`, which this predicate/contract pair models. -/
def firstMatchAux : Nat → List ((Value → Bool) × Bound) → Value → Option (Nat × Bound)
  | _, [], _ => none
  | n, (p, c) :: rest, v =>
    if p v then some (n, c) else firstMatchAux (n + 1) rest v

/-- Source `union(...discriminators)` (src/src/index.ts lines 180-211):
evaluate discriminators in declaration order, delegate to the first match
tagged with its index, raise `No matching union discriminator` when none
matches. -/
def union (discriminators : List ((Value → Bool) × Bound)) : Bound where
  transform := fun v s =>
    match firstMatchAux 0 discriminators v with
    | some (i, c) => c.transform v (s ++ ["union:transform[" ++ toString i ++ "]"])
    | none => .error (.tfail "No matching union discriminator" (render (s ++ ["union:transform"])) none)
  restore := fun v s =>
    match firstMatchAux 0 discriminators v with
    | some (i, c) => c.restore v (s ++ ["union:restore[" ++ toString i ++ "]"])
    | none => .error (.tfail "No matching union discriminator" (render (s ++ ["union:restore"])) none)
  attrs_optional := false

/-- Source `SerializationConfig` (src/src/types.ts lines 29-33): a
serializer/deserializer pair.  The concrete text codec is out of the
engine's scope; the deserializer may fail (JSON.parse throws a native
error). -/
structure SerializationConfig where
  serializer : Value → Value
  deserializer : Value → Except Err Value

/-- Source `document(schema, {serializer, deserializer})` (src/src/index.ts
lines 219-236): `transform` runs the inner transform then serializes,
`restore` deserializes then runs the inner restore. -/
def document (schema : Bound) (cfg : SerializationConfig) : Bound where
  transform := fun v s =>
    match schema.transform v (s ++ ["document:transform"]) with
    | .error e => .error e
    | .ok lit => .ok (cfg.serializer lit)
  restore := fun v s =>
    match cfg.deserializer v with
    | .error e => .error e
    | .ok lit => schema.restore lit (s ++ ["document:restore"])
  attrs_optional := false

/-- Source `SetDefaultSerializationConfig` (src/src/serialization.ts lines
14-16), with the module-level mutable `DefaultSerializationConfig` made an
explicit state value: the call replaces the whole state. -/
def SetDefaultSerializationConfig (config : SerializationConfig) (_current : SerializationConfig) :
    SerializationConfig :=
  config

/-- Construction of a document contract as at the source call site
`document(schema)` or `document(schema, explicit)`: per JS semantics the
default parameter `= DefaultSerializationConfig` is evaluated once, when
`document(...)` is invoked (contract construction), and destructured into
`serializer`/`deserializer` locals which the returned closures capture.
`globalDefault` is the value of the module-level default at that moment. -/
def documentUsingDefault (schema : Bound) (explicitCfg : Option SerializationConfig)
    (globalDefault : SerializationConfig) : Bound :=
  document schema (explicitCfg.getD globalDefault)

/-!
Heap-aware value model.  JS strict equality `===` compares composite values
(objects, arrays) by reference, not structurally, so the `literal` combinator
(src/src/index.ts lines 54-56, predicate `v === value`) needs values that
carry their heap identity.  `HVal` is `Value` with an identity on each
composite node; `eraseIds` forgets the identities, and two `HVal`s are deeply
(structurally) equal exactly when their erasures are equal.
-/

/-- JS runtime value together with the heap identity of each composite node. -/
inductive HVal where
  | vstr (s : String)
  | vnum (n : Int)
  | vbool (b : Bool)
  | vnull
  | vundefined
  | vobj (id : Nat) (fields : List (String × HVal))
  | varr (id : Nat) (elems : List HVal)
  | vfun

mutual

/-- Forget heap identities, keeping the structure. -/
def eraseIds : HVal → Value
  | .vstr s => .str s
  | .vnum n => .num n
  | .vbool b => .bool b
  | .vnull => .null
  | .vundefined => .undefined
  | .vfun => .jsFunction
  | .vobj _ fs => .obj (eraseIdsFields fs)
  | .varr _ xs => .arr (eraseIdsList xs)

/-- Erase identities in object fields. -/
def eraseIdsFields : List (String × HVal) → List (String × Value)
  | [] => []
  | (k, v) :: rest => (k, eraseIds v) :: eraseIdsFields rest

/-- Erase identities in array elements. -/
def eraseIdsList : List HVal → List Value
  | [] => []
  | v :: rest => eraseIds v :: eraseIdsList rest

end

/-- JS strict equality `===`: primitives by value, composites by reference
(heap identity); values of different kinds are never strictly equal. -/
def jsStrictEq : HVal → HVal → Bool
  | .vstr a, .vstr b => a == b
  | .vnum a, .vnum b => a == b
  | .vbool a, .vbool b => a == b
  | .vnull, .vnull => true
  | .vundefined, .vundefined => true
  | .vfun, .vfun => true
  | .vobj i _, .vobj j _ => i == j
  | .varr i _, .varr j _ => i == j
  | _, _ => false

/-- The `TransformationError` raised in the heap-aware model. -/
structure ErrH where
  message : String
  location : String
  offender : Option HVal

/-- A contract over heap-aware values (transform/restore only; the `literal`
contract carries no attribute bag beyond the wrapper's). -/
structure BoundH where
  transform : HVal → List String → Except ErrH HVal
  restore : HVal → List String → Except ErrH HVal

/-- Source `validated` over heap-aware values, with the source's default
`reason`, `() => 'Failed validation'`, supplied at the `literal` call site.
The `restore` error path again evaluates `reason` on the hoisted `object`
combinator function (`HVal.vfun`) and records it as the offender. -/
def validatedH (validator : HVal → Bool) (reason : HVal → String) : BoundH where
  transform := fun v s =>
    if validator v then .ok v
    else .error ⟨reason v, render s, some v⟩
  restore := fun v s =>
    if validator v then .ok v
    else .error ⟨reason HVal.vfun, render s, some HVal.vfun⟩

/-- Source `stackwrap` over heap-aware values. -/
def stackwrapH (upstream : BoundH) (thisMessage : String) : BoundH where
  transform := fun v s => upstream.transform v (s ++ [thisMessage])
  restore := fun v s => upstream.restore v (s ++ [thisMessage])

/-- Source `literal(value)` (src/src/index.ts lines 54-56): `validated` with
the predicate `(v) => v === value` (strict equality) and the default reason,
wrapped with the `literal` label. -/
def literal (value : HVal) : BoundH :=
  stackwrapH (validatedH (fun v => jsStrictEq v value) (fun _ => "Failed validation")) "literal"

/-!
Round-trip machinery for the engine's combinator closure.
-/

/-- Round-trip property of a contract: a successful `restore` can be
transformed back, and restoring that transform result reproduces the first
restore result, with arbitrary path stacks throughout (stacks only feed error
reporting). -/
def RT (c : Bound) : Prop :=
  ∀ l v s₁, c.restore l s₁ = .ok v →
    ∀ s₂ s₃, ∃ l', c.transform v s₂ = .ok l' ∧ c.restore l' s₃ = .ok v

/-- A record-key contract that passes keys through unchanged whenever it
succeeds, as every string-typed key contract of the engine does. -/
def KeyContractId (c : Bound) : Prop :=
  (∀ l v s, c.restore l s = .ok v → v = l) ∧ (∀ v l' s, c.transform v s = .ok l' → l' = v)

/-- A contract whose `TransformationError`s on restore carry a location that
extends the incoming path stack — the stack discipline every engine combinator
follows (tags are only ever appended before delegation). -/
def stackExtending (c : Bound) : Prop :=
  ∀ v s m loc off, c.restore v s = .error (.tfail m loc off) → ∃ rest, loc = render (s ++ rest)

/-- Contracts built from the engine's combinators, together with the
side conditions under which the round-trip law holds: object shapes have
distinct declared keys (JS object literals cannot repeat keys), record key
contracts pass keys through, union discriminator lists are selection-stable
across the delegated round trip, and document codecs invert serialization and
serialize into the literal universe (never to `undefined`). -/
inductive Built : Bound → Prop where
  | validatedB (p : Value → Bool) (r : Value → String) : Built (validated p r)
  | anyB : Built any
  | wrapB (c : Bound) (lbl : String) : Built c → Built (stackwrap c lbl)
  | optB (c : Bound) : Built c → Built (optional c)
  | arrB (c : Bound) : Built c → Built (array c)
  | objB (fields : List (String × Bound)) :
      (∀ p ∈ fields, Built p.2) → (fields.map Prod.fst).Nodup → Built (object fields)
  | recB (kc vc : Bound) : Built kc → Built vc → KeyContractId kc → Built (record kc vc)
  | unionB (discs : List ((Value → Bool) × Bound)) :
      (∀ p ∈ discs, Built p.2) →
      (∀ l v i c s, firstMatchAux 0 discs l = some (i, c) → c.restore l s = .ok v →
        firstMatchAux 0 discs v = some (i, c)) →
      (∀ v l' i c s, firstMatchAux 0 discs v = some (i, c) → c.transform v s = .ok l' →
        firstMatchAux 0 discs l' = some (i, c)) →
      Built (union discs)
  | docB (c : Bound) (cfg : SerializationConfig) :
      Built c →
      (∀ l, cfg.deserializer (cfg.serializer l) = .ok l) →
      (∀ l, cfg.serializer l ≠ .undefined) →
      Built (document c cfg)

/-!
Generic lemmas about the fail-fast mappers, the first-match scan and
`fromEntries`.
-/

theorem mapME_congr_id {α : Type} (f : α → Except Err α) (l : List α)
    (h : ∀ a ∈ l, f a = .ok a) : mapME f l = .ok l := by
  induction l with
  | nil => rfl
  | cons a as ih =>
    simp only [mapME, h a (by simp)]
    rw [ih (fun b hb => h b (by simp [hb]))]

theorem mapME_ok_mem {α β : Type} (f : α → Except Err β) (l : List α) (res : List β)
    (h : mapME f l = .ok res) : ∀ b ∈ res, ∃ a ∈ l, f a = .ok b := by
  induction l generalizing res with
  | nil =>
    cases h
    intro b hb
    exact absurd hb (List.not_mem_nil b)
  | cons a as ih =>
    simp only [mapME] at h
    split at h
    · cases h
    · next b0 hfa =>
      split at h
      · cases h
      · next bs hbs =>
        cases h
        intro b hb
        rcases List.mem_cons.mp hb with hb | hb
        · exact ⟨a, by simp, by rw [hfa, hb]⟩
        · rcases ih bs hbs b hb with ⟨a', ha', hfa'⟩
          exact ⟨a', by simp [ha'], hfa'⟩

theorem mapME_exists_forall₂ {α β : Type} (f : α → Except Err β) (R : α → β → Prop) (l : List α)
    (h : ∀ a ∈ l, ∃ b, f a = .ok b ∧ R a b) :
    ∃ res, mapME f l = .ok res ∧ List.Forall₂ R l res := by
  induction l with
  | nil => exact ⟨[], rfl, List.Forall₂.nil⟩
  | cons a as ih =>
    rcases h a (by simp) with ⟨b, hfa, hR⟩
    rcases ih (fun a' ha' => h a' (by simp [ha'])) with ⟨bs, hbs, hF⟩
    refine ⟨b :: bs, ?_, List.Forall₂.cons hR hF⟩
    simp only [mapME, hfa, hbs]

theorem mapME_of_forall₂ {α β : Type} (f : α → Except Err β) (l : List α) (res : List β)
    (h : List.Forall₂ (fun a b => f a = .ok b) l res) : mapME f l = .ok res := by
  induction h with
  | nil => rfl
  | cons hab _ ih =>
    simp only [mapME, hab, ih]

theorem mapIdxME_rt (fr ft fr2 : Nat → Value → Except Err Value)
    (h : ∀ j x y, fr j x = .ok y → ∃ z, ft j y = .ok z ∧ fr2 j z = .ok y) :
    ∀ (xs : List Value) (n : Nat) (ys : List Value), mapIdxME fr n xs = .ok ys →
      ∃ zs, mapIdxME ft n ys = .ok zs ∧ mapIdxME fr2 n zs = .ok ys := by
  intro xs
  induction xs with
  | nil =>
    intro n ys hys
    cases hys
    exact ⟨[], rfl, rfl⟩
  | cons x xs' ih =>
    intro n ys hys
    simp only [mapIdxME] at hys
    split at hys
    · cases hys
    · next y hy =>
      split at hys
      · cases hys
      · next ys' hys' =>
        cases hys
        rcases h n x y hy with ⟨z, hz, hz2⟩
        rcases ih (n + 1) ys' hys' with ⟨zs', hzs', hzs2⟩
        exact ⟨z :: zs', by simp only [mapIdxME, hz, hzs'], by simp only [mapIdxME, hz2, hzs2]⟩

theorem mapIdxME_error_at (f : Nat → Value → Except Err Value) :
    ∀ (xs : List Value) (n i : Nat) (vi : Value) (e : Err),
      xs.get? i = some vi →
      (∀ j vj, j < i → xs.get? j = some vj → ∃ r, f (n + j) vj = .ok r) →
      f (n + i) vi = .error e →
      mapIdxME f n xs = .error e := by
  intro xs
  induction xs with
  | nil =>
    intro n i vi e hget _ _
    cases hget
  | cons x xs' ih =>
    intro n i vi e hget hpre hfail
    cases i with
    | zero =>
      have hx : x = vi := by simpa using hget
      subst hx
      simp only [mapIdxME]
      rw [show f n x = .error e from hfail]
    | succ j =>
      rcases hpre 0 x (Nat.succ_pos j) rfl with ⟨r, hr⟩
      simp only [mapIdxME]
      rw [show f n x = .ok r by simpa using hr]
      rw [ih (n + 1) j vi e (by simpa using hget)
        (fun j' vj hj' hvj => by
          rcases hpre (j' + 1) vj (Nat.succ_lt_succ hj') (by simpa using hvj) with ⟨r', hr'⟩
          exact ⟨r', by rw [show n + 1 + j' = n + (j' + 1) by omega]; exact hr'⟩)
        (by rw [show n + 1 + j = n + (j + 1) by omega]; exact hfail)]

theorem firstMatchAux_mem (discs : List ((Value → Bool) × Bound)) :
    ∀ (n i : Nat) (c : Bound) (v : Value),
      firstMatchAux n discs v = some (i, c) → ∃ p ∈ discs, p.2 = c := by
  induction discs with
  | nil =>
    intro n i c v h
    cases h
  | cons q rest ih =>
    intro n i c v h
    simp only [firstMatchAux] at h
    split at h
    · cases h
      exact ⟨q, by simp, rfl⟩
    · rcases ih (n + 1) i c v h with ⟨p, hp, hpc⟩
      exact ⟨p, by simp [hp], hpc⟩

theorem firstMatchAux_skip (v : Value) :
    ∀ (pre rest : List ((Value → Bool) × Bound)) (n : Nat),
      (∀ q ∈ pre, q.1 v = false) →
      firstMatchAux n (pre ++ rest) v = firstMatchAux (n + pre.length) rest v := by
  intro pre
  induction pre with
  | nil =>
    intro rest n _
    rfl
  | cons q pre' ih =>
    intro rest n hall
    have h0 : q.1 v = false := hall q (by simp)
    simp only [List.cons_append, firstMatchAux, h0, Bool.false_eq_true, if_false, List.append_eq]
    rw [ih rest (n + 1) (fun q' hq' => hall q' (by simp [hq']))]
    congr 1
    simp only [List.length_cons]
    omega

theorem firstMatchAux_none (v : Value) :
    ∀ (discs : List ((Value → Bool) × Bound)) (n : Nat),
      (∀ q ∈ discs, q.1 v = false) → firstMatchAux n discs v = none := by
  intro discs
  induction discs with
  | nil => intro n _; rfl
  | cons q rest ih =>
    intro n hall
    simp only [firstMatchAux, hall q (by simp)]
    exact ih (n + 1) (fun q' hq' => hall q' (by simp [hq']))

theorem upsert_of_not_mem (k : String) (v : Value) :
    ∀ (acc : List (String × Value)), k ∉ acc.map Prod.fst → upsert acc k v = acc ++ [(k, v)] := by
  intro acc
  induction acc with
  | nil => intro _; rfl
  | cons p rest ih =>
    intro h
    have h1 : ¬(p.1 = k) := by
      intro hh
      exact h (by simp only [List.map_cons, List.mem_cons]; exact Or.inl hh.symm)
    have h2 : k ∉ rest.map Prod.fst := by
      intro hh
      exact h (by simp only [List.map_cons, List.mem_cons]; exact Or.inr hh)
    simp only [upsert]
    rw [if_neg (by simpa using h1), ih h2]
    rfl

theorem upsert_keys_of_mem (k : String) (v : Value) :
    ∀ (acc : List (String × Value)), k ∈ acc.map Prod.fst →
      (upsert acc k v).map Prod.fst = acc.map Prod.fst := by
  intro acc
  induction acc with
  | nil =>
    intro h
    exact absurd h (by simp)
  | cons p rest ih =>
    intro h
    simp only [upsert]
    by_cases hk : p.1 = k
    · rw [if_pos (by simpa using hk)]
      simp
    · rw [if_neg (by simpa using hk)]
      have hmem : k ∈ rest.map Prod.fst := by
        rcases (by simpa using h : k = p.1 ∨ k ∈ rest.map Prod.fst) with h' | h'
        · exact absurd h'.symm hk
        · exact h'
      simp only [List.map_cons, ih hmem]

theorem upsert_mem (k : String) (v : Value) :
    ∀ (acc : List (String × Value)) (p : String × Value), p ∈ upsert acc k v → p ∈ acc ∨ p = (k, v) := by
  intro acc
  induction acc with
  | nil =>
    intro p hp
    simp only [upsert] at hp
    exact Or.inr (List.mem_singleton.mp hp)
  | cons q rest ih =>
    intro p hp
    simp only [upsert] at hp
    split at hp
    · next hq =>
      rcases List.mem_cons.mp hp with h | h
      · right
        rw [h]
        have hqk : q.1 = k := by simpa using hq
        rw [hqk]
      · exact Or.inl (List.mem_cons.mpr (Or.inr h))
    · rcases List.mem_cons.mp hp with h | h
      · exact Or.inl (by simp [h])
      · rcases ih p h with h' | h'
        · exact Or.inl (by simp [h'])
        · exact Or.inr h'

theorem foldl_upsert_nodup :
    ∀ (l acc : List (String × Value)), (acc.map Prod.fst).Nodup →
      ((l.foldl (fun acc p => upsert acc p.1 p.2) acc).map Prod.fst).Nodup := by
  intro l
  induction l with
  | nil => intro acc h; exact h
  | cons p l' ih =>
    intro acc h
    simp only [List.foldl_cons]
    apply ih
    by_cases hmem : p.1 ∈ acc.map Prod.fst
    · rw [upsert_keys_of_mem p.1 p.2 acc hmem]
      exact h
    · rw [upsert_of_not_mem p.1 p.2 acc hmem]
      simp only [List.map_append, List.map_cons, List.map_nil]
      simp [List.nodup_append, h, hmem]

theorem fromEntries_keys_nodup (l : List (String × Value)) :
    ((fromEntries l).map Prod.fst).Nodup :=
  foldl_upsert_nodup l [] (by simp)

theorem foldl_upsert_of_nodup :
    ∀ (l acc : List (String × Value)), ((acc ++ l).map Prod.fst).Nodup →
      l.foldl (fun acc p => upsert acc p.1 p.2) acc = acc ++ l := by
  intro l
  induction l with
  | nil => intro acc _; simp
  | cons p l' ih =>
    intro acc h
    have hnot : p.1 ∉ acc.map Prod.fst := by
      simp only [List.map_append, List.nodup_append, List.map_cons] at h
      intro hmem
      exact h.2.2 hmem (by simp)
    simp only [List.foldl_cons, upsert_of_not_mem p.1 p.2 acc hnot]
    have heta : acc ++ [(p.1, p.2)] = acc ++ [p] := by simp
    rw [heta, ih (acc ++ [p]) (by simpa using h)]
    simp

theorem fromEntries_of_nodup (l : List (String × Value)) (h : (l.map Prod.fst).Nodup) :
    fromEntries l = l :=
  foldl_upsert_of_nodup l [] (by simpa)

theorem foldl_upsert_mem :
    ∀ (l acc : List (String × Value)) (p : String × Value),
      p ∈ l.foldl (fun acc q => upsert acc q.1 q.2) acc → p ∈ acc ∨ p ∈ l := by
  intro l
  induction l with
  | nil => intro acc p h; exact Or.inl h
  | cons q l' ih =>
    intro acc p h
    simp only [List.foldl_cons] at h
    rcases ih (upsert acc q.1 q.2) p h with h' | h'
    · rcases upsert_mem q.1 q.2 acc p h' with h'' | h''
      · exact Or.inl h''
      · right
        rw [h'']
        simp
    · exact Or.inr (by simp [h'])

theorem fromEntries_mem (l : List (String × Value)) (p : String × Value)
    (h : p ∈ fromEntries l) : p ∈ l := by
  rcases foldl_upsert_mem l [] p h with h' | h'
  · exact absurd h' (List.not_mem_nil p)
  · exact h'

theorem lookup_eq_of_nodup :
    ∀ (ps : List (String × Value)) (k : String) (x : Value),
      (ps.map Prod.fst).Nodup → (k, x) ∈ ps → ps.lookup k = some x := by
  intro ps
  induction ps with
  | nil =>
    intro k x _ hmem
    exact absurd hmem (List.not_mem_nil _)
  | cons q rest ih =>
    intro k x hnd hmem
    rcases List.mem_cons.mp hmem with h | h
    · rw [← h]
      simp [List.lookup]
    · have hk : k ∈ rest.map Prod.fst := by
        exact List.mem_map.mpr ⟨(k, x), h, rfl⟩
      have hq : (k == q.1) = false := by
        simp only [List.map_cons, List.nodup_cons] at hnd
        simp only [beq_eq_false_iff_ne, ne_eq]
        intro hbeq
        exact hnd.1 (by rwa [← hbeq])
      simp only [List.lookup, hq]
      exact ih k x (by simp only [List.map_cons, List.nodup_cons] at hnd; exact hnd.2) h

theorem lookup_isSome_of_mem_keys :
    ∀ (ps : List (String × Value)) (k : String),
      k ∈ ps.map Prod.fst → (ps.lookup k).isSome = true := by
  intro ps
  induction ps with
  | nil =>
    intro k h
    exact absurd h (by simp)
  | cons q rest ih =>
    intro k h
    by_cases hk : k = q.1
    · have hbeq : (k == q.1) = true := by simpa using hk
      simp [List.lookup, hbeq]
    · have hbeq : (k == q.1) = false := by simpa using hk
      simp only [List.lookup, hbeq]
      apply ih
      rcases (by simpa using h : k = q.1 ∨ k ∈ rest.map Prod.fst) with h' | h'
      · exact absurd h' hk
      · exact h'

theorem mapME_ok_cons_inv {α β : Type} (f : α → Except Err β) (a : α) (as : List α)
    (res : List β) (h : mapME f (a :: as) = .ok res) :
    ∃ b bs, f a = .ok b ∧ mapME f as = .ok bs ∧ res = b :: bs := by
  simp only [mapME] at h
  split at h
  · cases h
  · next b hb =>
    split at h
    · cases h
    · next bs hbs =>
      cases h
      exact ⟨b, bs, hb, hbs, rfl⟩

theorem forall₂_keys_eq {α β : Type} (R : (String × α) → (String × β) → Prop)
    (hR : ∀ p q, R p q → p.1 = q.1) :
    ∀ (l₁ : List (String × α)) (l₂ : List (String × β)), List.Forall₂ R l₁ l₂ →
      l₂.map Prod.fst = l₁.map Prod.fst := by
  intro l₁ l₂ h
  induction h with
  | nil => rfl
  | cons hab _ ih =>
    simp only [List.map_cons, ih]
    rw [hR _ _ hab]

/-- Transforms of built contracts stay inside the literal universe: a
non-`undefined` input never transforms to `undefined` (containers produce
containers, validators and `any` pass the input through, document serializers
are required to produce non-`undefined` output). -/
theorem built_transform_ne_undef (c : Bound) (h : Built c) :
    ∀ v s l', c.transform v s = .ok l' → v ≠ .undefined → l' ≠ .undefined := by
  induction h with
  | validatedB p r =>
    intro v s l' h hv
    simp only [validated] at h
    split at h
    · cases h; exact hv
    · cases h
  | anyB =>
    intro v s l' h hv
    cases h
    exact hv
  | wrapB c lbl hb ih =>
    intro v s l' h hv
    exact ih v _ l' h hv
  | optB c hb ih =>
    intro v s l' h hv
    cases v <;> simp only [optional] at h
    case undefined => exact absurd rfl hv
    all_goals exact ih _ _ _ h (fun hh => nomatch hh)
  | arrB c hb ih =>
    intro v s l' h hv
    cases v <;> simp only [array] at h
    case arr xs =>
      split at h
      · cases h
      · cases h
        intro hh
        nomatch hh
    all_goals cases h
  | objB fields hall hnd ih =>
    intro v s l' h hv
    simp only [object] at h
    split at h
    · cases h
    · cases h
      intro hh
      nomatch hh
  | recB kc vc hk hvc hid ihk ihv =>
    intro v s l' h hvne
    simp only [record] at h
    split at h
    · cases h
    · split at h
      · cases h
      · cases h
        intro hh
        nomatch hh
  | unionB discs hall st1 st2 ih =>
    intro v s l' h hv
    simp only [union] at h
    split at h
    · next i c hfm =>
      rcases firstMatchAux_mem discs 0 i c v hfm with ⟨p, hp, hpc⟩
      exact ih p hp v _ l' (by rw [hpc]; exact h) hv
    · cases h
  | docB c cfg hb hinv hser ih =>
    intro v s l' h hv
    simp only [document] at h
    split at h
    · cases h
    · cases h
      exact hser _

/-- Round trip of the aligned per-key passes of the object combinator: given
that each declared key's contract satisfies `RT` and each key's first restore
result is recorded in `ps`, the transform pass on any value `w` whose
properties agree with `ps` succeeds, produces the declared keys, and a further
restore pass on any value agreeing with that transform result reproduces
`ps`. -/
theorem objectFields_roundtrip_core :
    ∀ (fields : List (String × Bound)) (ps : List (String × Value)),
      List.Forall₂ (fun (p : String × Bound) (q : String × Value) =>
        p.1 = q.1 ∧ ∃ x s₀, p.2.restore x s₀ = .ok q.2) fields ps →
      (∀ p ∈ fields, RT p.2) →
      ∀ (w : Value) (s₂ s₃ : List String),
        (∀ k y, (k, y) ∈ ps → jsGet w k = y) →
        ∃ ts, objectTransformFields fields w s₂ = .ok ts
          ∧ ts.map Prod.fst = fields.map Prod.fst
          ∧ ∀ w', (∀ k y, (k, y) ∈ ts → jsGet w' k = y) →
              objectRestoreFields fields w' s₃ = .ok ps := by
  intro fields ps hF
  induction hF with
  | nil =>
    intro _ w s₂ s₃ _
    exact ⟨[], rfl, rfl, fun _ _ => rfl⟩
  | @cons p q fields' ps' hpq hrest ih =>
    intro hrt w s₂ s₃ hget
    rcases hpq with ⟨hk, x, s₀, hx⟩
    have hrtp : RT p.2 := hrt p (by simp)
    rcases hrtp x q.2 s₀ hx (s₂ ++ ["object:transform['" ++ p.1 ++ "']"])
      (s₃ ++ ["object:restore['" ++ p.1 ++ "']"]) with ⟨t, ht, ht2⟩
    have hq_mem : (p.1, q.2) ∈ q :: ps' := by
      have : (p.1, q.2) = q := by rw [hk]
      rw [this]
      simp
    have hgw : jsGet w p.1 = q.2 := hget p.1 q.2 hq_mem
    rcases ih (fun p' hp' => hrt p' (by simp [hp'])) w s₂ s₃
      (fun k y hky => hget k y (by simp [hky])) with ⟨ts', hts', hkeys', hrestore'⟩
    refine ⟨(p.1, t) :: ts', ?_, ?_, ?_⟩
    · simp only [objectTransformFields, mapME] at hts' ⊢
      rw [hgw, ht, hts']
    · simp only [List.map_cons, hkeys']
    · intro w' hget'
      have hgw' : jsGet w' p.1 = t := hget' p.1 t (by simp)
      have htail := hrestore' w' (fun k y hky => hget' k y (by simp [hky]))
      simp only [objectRestoreFields, mapME] at htail ⊢
      rw [hgw', ht2, htail]
      show Except.ok ((p.1, q.2) :: ps') = Except.ok (q :: ps')
      have : (p.1, q.2) = q := by rw [hk]
      rw [this]

theorem objectRestoreFields_ok_forall₂ :
    ∀ (fields : List (String × Bound)) (v : Value) (s : List String) (ps : List (String × Value)),
      objectRestoreFields fields v s = .ok ps →
      List.Forall₂ (fun (p : String × Bound) (q : String × Value) =>
        p.1 = q.1 ∧ p.2.restore (jsGet v p.1) (s ++ ["object:restore['" ++ p.1 ++ "']"]) = .ok q.2)
        fields ps := by
  intro fields
  induction fields with
  | nil =>
    intro v s ps h
    simp only [objectRestoreFields, mapME] at h
    cases h
    exact List.Forall₂.nil
  | cons p fs ih =>
    intro v s ps h
    simp only [objectRestoreFields] at h
    rcases mapME_ok_cons_inv _ p fs ps h with ⟨b, bs, hb, hbs, hps⟩
    cases hr : p.2.restore (jsGet v p.1) (s ++ ["object:restore['" ++ p.1 ++ "']"]) with
    | error e =>
      rw [hr] at hb
      cases hb
    | ok r =>
      rw [hr] at hb
      cases hb
      subst hps
      exact List.Forall₂.cons ⟨rfl, by rw [hr]⟩ (ih v s bs hbs)

theorem shapeBad_obj (fs : List (String × Value)) : shapeBad (.obj fs) = false := rfl

theorem forall₂_swap {α β : Type} {R : α → β → Prop} :
    ∀ {l₁ : List α} {l₂ : List β}, List.Forall₂ R l₁ l₂ → List.Forall₂ (fun b a => R a b) l₂ l₁ := by
  intro l₁ l₂ h
  induction h with
  | nil => exact List.Forall₂.nil
  | cons hab _ ih => exact List.Forall₂.cons hab ih

/-- The round-trip law for every contract in the `Built` closure: a
successful `restore` transforms back without raising, and restoring the
transform result reproduces the first restore result exactly. -/
theorem built_roundtrip (c : Bound) (h : Built c) : RT c := by
  induction h with
  | validatedB p r =>
    intro l v s₁ h s₂ s₃
    simp only [validated] at h ⊢
    split at h
    · next hp =>
      cases h
      exact ⟨l, by rw [if_pos hp], by rw [if_pos hp]⟩
    · cases h
  | anyB =>
    intro l v s₁ h s₂ s₃
    cases h
    exact ⟨l, rfl, rfl⟩
  | wrapB c lbl hb ih =>
    intro l v s₁ h s₂ s₃
    rcases ih l v (s₁ ++ [lbl]) h (s₂ ++ [lbl]) (s₃ ++ [lbl]) with ⟨l', h1, h2⟩
    exact ⟨l', h1, h2⟩
  | optB c hb ih =>
    intro l v s₁ h s₂ s₃
    by_cases hv : v = .undefined
    · subst hv
      exact ⟨.undefined, rfl, rfl⟩
    · have hinner : c.restore l s₁ = .ok v := by
        cases l <;> simp only [optional] at h <;> try exact h
        · exact absurd (by cases h; rfl) hv
      rcases ih l v s₁ hinner s₂ s₃ with ⟨l', h1, h2⟩
      have hl' : l' ≠ .undefined := built_transform_ne_undef c hb v s₂ l' h1 hv
      refine ⟨l', ?_, ?_⟩
      · cases v <;> simp only [optional] <;> try exact h1
        · exact absurd rfl hv
      · cases l' <;> simp only [optional] <;> try exact h2
        · exact absurd rfl hl'
  | arrB item hb ih =>
    intro l v s₁ h s₂ s₃
    cases l <;> simp only [array] at h
    case arr xs =>
      split at h
      · cases h
      · next ys hys =>
        cases h
        have hpt : ∀ j x y,
            (fun (j : Nat) e => item.restore e (s₁ ++ ["array:restore[" ++ toString j ++ "]"])) j x = .ok y →
            ∃ z, (fun (j : Nat) e => item.transform e (s₂ ++ ["array:transform[" ++ toString j ++ "]"])) j y = .ok z ∧
              (fun (j : Nat) e => item.restore e (s₃ ++ ["array:restore[" ++ toString j ++ "]"])) j z = .ok y := by
          intro j x y hxy
          exact ih x y _ hxy _ _
        rcases mapIdxME_rt _ _ _ hpt xs 0 ys hys with ⟨zs, hzs1, hzs2⟩
        refine ⟨.arr zs, ?_, ?_⟩
        · simp only [array]
          rw [hzs1]
        · simp only [array]
          rw [hzs2]
    all_goals cases h
  | objB fields hall hnd ih =>
    intro l v s₁ h s₂ s₃
    simp only [object] at h
    split at h
    · cases h
    · split at h
      · cases h
      · split at h
        · cases h
        · next ps hps =>
          cases h
          have hF := objectRestoreFields_ok_forall₂ fields l s₁ ps hps
          have hkeys : ps.map Prod.fst = fields.map Prod.fst :=
            forall₂_keys_eq _ (fun p q hpq => hpq.1) _ _ hF
          have hndps : (ps.map Prod.fst).Nodup := by rw [hkeys]; exact hnd
          have hfe : fromEntries ps = ps := fromEntries_of_nodup ps hndps
          have hF' : List.Forall₂ (fun (p : String × Bound) (q : String × Value) =>
              p.1 = q.1 ∧ ∃ x s₀, p.2.restore x s₀ = .ok q.2) fields ps :=
            hF.imp (fun a b hpq => ⟨hpq.1, _, _, hpq.2⟩)
          have hget : ∀ k y, (k, y) ∈ ps → jsGet (Value.obj (fromEntries ps)) k = y := by
            intro k y hky
            rw [hfe]
            simp only [jsGet]
            rw [lookup_eq_of_nodup ps k y hndps hky]
            rfl
          rcases objectFields_roundtrip_core fields ps hF' (fun p hp => ih p hp)
            (Value.obj (fromEntries ps)) s₂ s₃ hget with ⟨ts, hts, hkts, hres⟩
          have hndts : (ts.map Prod.fst).Nodup := by rw [hkts]; exact hnd
          have hfets : fromEntries ts = ts := fromEntries_of_nodup ts hndts
          refine ⟨.obj (fromEntries ts), ?_, ?_⟩
          · simp only [object]
            rw [hts]
          · simp only [object, shapeBad_obj, Bool.false_eq_true, if_false]
            have hreq : requiredMissing fields (.obj (fromEntries ts)) = none := by
              rw [hfets]
              simp only [requiredMissing]
              rw [List.find?_eq_none.mpr ?_]
              intro p hp
              have hhas : jsHas (.obj ts) p.1 = true := by
                simp only [jsHas]
                apply lookup_isSome_of_mem_keys
                rw [hkts]
                exact List.mem_map.mpr ⟨p, hp, rfl⟩
              simp [hhas]
            rw [hreq]
            have hget' : ∀ k y, (k, y) ∈ ts → jsGet (Value.obj (fromEntries ts)) k = y := by
              intro k y hky
              rw [hfets]
              simp only [jsGet]
              rw [lookup_eq_of_nodup ts k y hndts hky]
              rfl
            rw [hres (Value.obj (fromEntries ts)) hget']
  | recB kc vc hkc hvc hid ihk ihv =>
    intro l v s₁ h s₂ s₃
    simp only [record] at h
    split at h
    · cases h
    · next ents hents =>
      split at h
      · cases h
      · next pairs hpairs =>
        cases h
        have hnddk : ((fromEntries pairs).map Prod.fst).Nodup := fromEntries_keys_nodup pairs
        have hstep : ∀ q ∈ fromEntries pairs,
            ∃ b : String × Value, (fun (p : String × Value) =>
                (match kc.transform (.str p.1) (s₂ ++ ["record:transform['key of " ++ p.1 ++ "']"]) with
                | .error e => .error e
                | .ok kv =>
                  match vc.transform p.2 (s₂ ++ ["record:transform[value of '" ++ p.1 ++ "']"]) with
                  | .error e => .error e
                  | .ok vv => .ok (jsToPropKey kv, vv) : Except Err (String × Value))) q = .ok b ∧
              (b.1 = q.1 ∧ kc.restore (.str b.1) (s₃ ++ ["record:restore['key of " ++ b.1 ++ "']"]) = .ok (.str b.1)
                ∧ vc.restore b.2 (s₃ ++ ["record:restore[value of '" ++ b.1 ++ "']"]) = .ok q.2) := by
          intro q hq
          obtain ⟨k, x⟩ := q
          have hqp : (k, x) ∈ pairs := fromEntries_mem pairs (k, x) hq
          rcases mapME_ok_mem _ ents pairs hpairs (k, x) hqp with ⟨a, ha, hfa⟩
          cases hra : kc.restore (.str a.1) (s₁ ++ ["record:restore['key of " ++ a.1 ++ "']"]) with
          | error e =>
            rw [hra] at hfa
            cases hfa
          | ok kv =>
            rw [hra] at hfa
            cases hrv : vc.restore a.2 (s₁ ++ ["record:restore[value of '" ++ a.1 ++ "']"]) with
            | error e =>
              rw [hrv] at hfa
              cases hfa
            | ok vv =>
              rw [hrv] at hfa
              have hkv : kv = .str a.1 := hid.1 _ _ _ hra
              subst hkv
              have hfa' : ((jsToPropKey (Value.str a.1) : String), vv) = (k, x) := by
                cases hfa
                rfl
              have hka : a.1 = k := congrArg Prod.fst hfa'
              have hxv : vv = x := congrArg Prod.snd hfa'
              have hra' : kc.restore (.str k) (s₁ ++ ["record:restore['key of " ++ a.1 ++ "']"]) = .ok (.str k) := by
                rw [← hka]
                exact hra
              rcases ihk (.str k) (.str k) _ hra'
                (s₂ ++ ["record:transform['key of " ++ k ++ "']"])
                (s₃ ++ ["record:restore['key of " ++ k ++ "']"]) with ⟨lk, hlk1, hlk2⟩
              have hlke : lk = .str k := hid.2 _ _ _ hlk1
              subst hlke
              have hrv' : vc.restore a.2 (s₁ ++ ["record:restore[value of '" ++ a.1 ++ "']"]) = .ok x := by
                rw [hrv, hxv]
              rcases ihv a.2 x _ hrv'
                (s₂ ++ ["record:transform[value of '" ++ k ++ "']"])
                (s₃ ++ ["record:restore[value of '" ++ k ++ "']"]) with ⟨t, ht1, ht2⟩
              refine ⟨(k, t), ?_, rfl, hlk2, ht2⟩
              show (match kc.transform (.str k) (s₂ ++ ["record:transform['key of " ++ k ++ "']"]) with
                | .error e => (.error e : Except Err (String × Value))
                | .ok kv =>
                  match vc.transform x (s₂ ++ ["record:transform[value of '" ++ k ++ "']"]) with
                  | .error e => .error e
                  | .ok vv => .ok (jsToPropKey kv, vv)) = .ok (k, t)
              rw [hlk1, ht1]
              rfl
        rcases mapME_exists_forall₂ _ _ (fromEntries pairs) hstep with ⟨ts, hts, hFtr⟩
        have hkts : ts.map Prod.fst = (fromEntries pairs).map Prod.fst :=
          forall₂_keys_eq _ (fun p q hpq => hpq.1.symm) _ _ hFtr
        have hndts : (ts.map Prod.fst).Nodup := by rw [hkts]; exact hnddk
        have hfets : fromEntries ts = ts := fromEntries_of_nodup ts hndts
        refine ⟨.obj (fromEntries ts), ?_, ?_⟩
        · simp only [record, jsEntries]
          rw [hts]
        · simp only [record, jsEntries]
          rw [hfets]
          have hback : List.Forall₂ (fun (b : String × Value) (q : String × Value) =>
              (match kc.restore (.str b.1) (s₃ ++ ["record:restore['key of " ++ b.1 ++ "']"]) with
                | .error e => (.error e : Except Err (String × Value))
                | .ok kv =>
                  match vc.restore b.2 (s₃ ++ ["record:restore[value of '" ++ b.1 ++ "']"]) with
                  | .error e => .error e
                  | .ok vv => .ok (jsToPropKey kv, vv)) = .ok q) ts (fromEntries pairs) := by
            have hflip : List.Forall₂ (fun (b : String × Value) (q : String × Value) =>
                b.1 = q.1 ∧ kc.restore (.str b.1) (s₃ ++ ["record:restore['key of " ++ b.1 ++ "']"]) = .ok (.str b.1)
                  ∧ vc.restore b.2 (s₃ ++ ["record:restore[value of '" ++ b.1 ++ "']"]) = .ok q.2)
                ts (fromEntries pairs) := forall₂_swap hFtr
            refine hflip.imp ?_
            intro b q hpq
            rcases hpq with ⟨hb1, hkr, hvr⟩
            rw [hkr, hvr]
            show Except.ok ((jsToPropKey (Value.str b.1) : String), q.2) = Except.ok q
            show Except.ok ((b.1 : String), q.2) = Except.ok q
            rw [hb1]
          rw [mapME_of_forall₂ _ ts (fromEntries pairs) hback]
          show Except.ok (Value.obj (fromEntries (fromEntries pairs))) =
            Except.ok (Value.obj (fromEntries pairs))
          rw [fromEntries_of_nodup _ hnddk]
  | unionB discs hall st1 st2 ih =>
    intro l v s₁ h s₂ s₃
    simp only [union] at h
    split at h
    · next i c hfm =>
      rcases firstMatchAux_mem discs 0 i c l hfm with ⟨p, hp, hpc⟩
      have hrtc : RT c := by
        rw [← hpc]
        exact ih p hp
      have hres : c.restore l (s₁ ++ ["union:restore[" ++ toString i ++ "]"]) = .ok v := h
      have hfm2 := st1 l v i c _ hfm hres
      rcases hrtc l v _ hres (s₂ ++ ["union:transform[" ++ toString i ++ "]"])
        (s₃ ++ ["union:restore[" ++ toString i ++ "]"]) with ⟨l', h1, h2⟩
      have hfm3 := st2 v l' i c _ hfm2 h1
      refine ⟨l', ?_, ?_⟩
      · simp only [union]
        rw [hfm2]
        exact h1
      · simp only [union]
        rw [hfm3]
        exact h2
    · cases h
  | docB inner cfg hb hinv hser ih =>
    intro l v s₁ h s₂ s₃
    simp only [document] at h
    split at h
    · cases h
    · next lit hdes =>
      rcases ih lit v _ h (s₂ ++ ["document:transform"]) (s₃ ++ ["document:restore"]) with ⟨lit', h1, h2⟩
      refine ⟨cfg.serializer lit', ?_, ?_⟩
      · simp only [document]
        rw [h1]
      · simp only [document]
        rw [hinv lit']
        exact h2

/-- The `number` primitive is stack-extending: every `TransformationError` its
restore raises carries a location rendered from the incoming stack plus its
own label. -/
theorem number_stack_extending : stackExtending number := by
  intro v s m loc off h
  simp only [number, stackwrap, validated] at h
  split at h
  · cases h
  · cases h
    exact ⟨["number"], rfl⟩

/-- C1: the spec says a failing `restore` of a primitive or validated contract
raises a Transformation Failure whose message is `reasonFn` applied to the
failing value — `string().restore(42)` should mention `'number'`.  The code's
`restore` error path instead evaluates `reason(object)` where `object` is the
hoisted module-level `object` combinator function, so the message reports
`typeof` of a function and the recorded offender is that function; values
passing the predicate are returned unchanged, and the `transform` direction
applies `reason` to the actual value as specified. -/
theorem c1_validated_restore_reason_slip :
    (string.restore (.num 42) [] =
      .error (.tfail "expected 'string', received 'function'" "string(!!)" (some .jsFunction)))
    ∧ (number.restore (.str "a") [] =
      .error (.tfail "expected 'number', received 'function'" "number(!!)" (some .jsFunction)))
    ∧ (boolean.restore (.num 0) [] =
      .error (.tfail "expected 'boolean', received 'function'" "boolean(!!)" (some .jsFunction)))
    ∧ (nil.restore (.bool true) [] =
      .error (.tfail "expected 'null', received 'function'" "nil(!!)" (some .jsFunction)))
    ∧ (string.restore (.str "x") [] = .ok (.str "x"))
    ∧ (string.transform (.num 42) [] =
      .error (.tfail "expected 'string', received 'number'" "string(!!)" (some (.num 42)))) :=
  ⟨rfl, rfl, rfl, rfl, rfl, rfl⟩

/-- C2: object `restore` enforces required keys.  Generally, whenever the
shape check passes and some declared key is absent and not marked optional,
the restore raises `Missing required object key '<key>'` naming the first such
key; such a key is always a declared key whose child contract lacks the
optional attribute and which is absent from the input.  Concretely, for the
schema `{a: string, b: optional(string)}`, `restore({})` raises citing `'a'`
and `restore({a: "x"})` succeeds with `b` undefined. -/
theorem c2_object_required_keys :
    (∀ (fields : List (String × Bound)) (v : Value) (s : List String) (k : String),
      shapeBad v = false → requiredMissing fields v = some k →
      (object fields).restore v s =
        .error (.tfail ("Missing required object key '" ++ k ++ "'")
          (render (s ++ ["object:transform"])) none))
    ∧ (∀ (fields : List (String × Bound)) (v : Value) (k : String),
      requiredMissing fields v = some k →
      ∃ c, (k, c) ∈ fields ∧ c.attrs_optional = false ∧ jsHas v k = false)
    ∧ ((object [("a", string), ("b", optional string)]).restore (.obj []) [] =
        .error (.tfail "Missing required object key 'a'" "object:transform(!!)" none))
    ∧ ((object [("a", string), ("b", optional string)]).restore (.obj [("a", .str "x")]) [] =
        .ok (.obj [("a", .str "x"), ("b", .undefined)])) := by
  refine ⟨?_, ?_, rfl, rfl⟩
  · intro fields v s k h1 h2
    simp only [object, h1, Bool.false_eq_true, if_false, h2]
  · intro fields v k h
    simp only [requiredMissing] at h
    split at h
    · next p hfind =>
      cases h
      have hpred := List.find?_some hfind
      have hmem := List.mem_of_find?_eq_some hfind
      rw [Bool.and_eq_true, Bool.not_eq_true', Bool.not_eq_true'] at hpred
      exact ⟨p.2, by simpa using hmem, hpred.2, hpred.1⟩
    · cases h

/-- C2 witness: concrete instance of the general missing-key clause. -/
theorem c2_object_required_keys_witness :
    (object [("a", string)]).restore (.obj []) [] =
      .error (.tfail "Missing required object key 'a'" "object:transform(!!)" none) :=
  c2_object_required_keys.1 [("a", string)] (.obj []) [] "a" rfl rfl

/-- C3: union discriminators are evaluated strictly in declaration order; the
first one whose predicate accepts the value wins — even when later
discriminators would also match — and the operation is delegated to its
contract with the stack tagged by that discriminator's index; when every
discriminator declines, both operations raise
`No matching union discriminator`. -/
theorem c3_union_first_match :
    (∀ (pre post : List ((Value → Bool) × Bound)) (p : Value → Bool) (c : Bound)
        (v : Value) (s : List String),
      (∀ q ∈ pre, q.1 v = false) → p v = true →
      (union (pre ++ (p, c) :: post)).transform v s =
        c.transform v (s ++ ["union:transform[" ++ toString pre.length ++ "]"])
      ∧ (union (pre ++ (p, c) :: post)).restore v s =
        c.restore v (s ++ ["union:restore[" ++ toString pre.length ++ "]"]))
    ∧ (∀ (discs : List ((Value → Bool) × Bound)) (v : Value) (s : List String),
      (∀ q ∈ discs, q.1 v = false) →
      (union discs).transform v s =
        .error (.tfail "No matching union discriminator" (render (s ++ ["union:transform"])) none)
      ∧ (union discs).restore v s =
        .error (.tfail "No matching union discriminator" (render (s ++ ["union:restore"])) none)) := by
  constructor
  · intro pre post p c v s hpre hp
    have hfm : firstMatchAux 0 (pre ++ (p, c) :: post) v = some (pre.length, c) := by
      rw [firstMatchAux_skip v pre ((p, c) :: post) 0 hpre]
      simp only [firstMatchAux, hp, if_true, Nat.zero_add]
    constructor
    · simp only [union]
      rw [hfm]
    · simp only [union]
      rw [hfm]
  · intro discs v s hall
    have hfm := firstMatchAux_none v discs 0 hall
    constructor
    · simp only [union]
      rw [hfm]
    · simp only [union]
      rw [hfm]

/-- C3 witness: two discriminators that both match; the first-declared
contract is selected in both directions. -/
theorem c3_union_first_match_witness :
    (union [(fun _ => true, string), (fun _ => true, number)]).transform (.str "x") [] =
      string.transform (.str "x") ["union:transform[0]"]
    ∧ (union [(fun _ => true, string), (fun _ => true, number)]).restore (.str "x") [] =
      string.restore (.str "x") ["union:restore[0]"] :=
  c3_union_first_match.1 [] [(fun _ => true, number)] (fun _ => true) string (.str "x") []
    (fun q hq => absurd hq (List.not_mem_nil q)) rfl

/-- C4 counterexample: a contract built from the engine's combinators (a union
over an embedded document, with the kind of discriminator every union
requires) on which the round-trip law fails as stated: `restore` of the
literal `"{}"` succeeds, but `transform` of that restore result raises
`No matching union discriminator`, because the discriminator matches the
serialized form and not the restored form. -/
theorem c4_roundtrip_counterexample :
    ((union [(fun v => jsTypeof v == "string",
        document (object []) ⟨fun _ => .str "S", fun _ => .ok (.obj [])⟩)]).restore
      (.str "{}") [] = .ok (.obj []))
    ∧ ((union [(fun v => jsTypeof v == "string",
        document (object []) ⟨fun _ => .str "S", fun _ => .ok (.obj [])⟩)]).transform
      (.obj []) [] =
      .error (.tfail "No matching union discriminator" "union:transform(!!)" none)) :=
  ⟨rfl, rfl⟩

/-- C4 (amended): the round-trip law holds for every contract in the `Built`
closure of the engine's combinators — which additionally requires each union's
discriminators to be selection-stable across the delegated round trip, each
document codec to invert serialization into the literal universe, record key
contracts to pass keys through, and object shapes to declare distinct keys:
whenever `restore` succeeds, `transform` of the result is defined and
restoring the transform result reproduces the first restore result. -/
theorem c4_roundtrip_amended (c : Bound) (hb : Built c) (l v : Value)
    (s₁ s₂ s₃ : List String) (h : c.restore l s₁ = .ok v) :
    ∃ l', c.transform v s₂ = .ok l' ∧ c.restore l' s₃ = .ok v :=
  built_roundtrip c hb l v s₁ h s₂ s₃

/-- C4 witness: the amended round trip at a document-wrapped object schema
with an optional field and a conforming (boxing) codec. -/
theorem c4_roundtrip_amended_witness :
    ∃ l', (document (object [("a", string), ("b", optional string)])
        ⟨fun v => .arr [v],
         fun w => match w with | .arr [v] => .ok v | _ => .error (.jsErr "bad box")⟩).transform
      (.obj [("a", .str "x"), ("b", .undefined)]) [] = .ok l'
    ∧ (document (object [("a", string), ("b", optional string)])
        ⟨fun v => .arr [v],
         fun w => match w with | .arr [v] => .ok v | _ => .error (.jsErr "bad box")⟩).restore
      l' [] = .ok (.obj [("a", .str "x"), ("b", .undefined)]) :=
  c4_roundtrip_amended _
    (Built.docB _ _
      (Built.objB _
        (by
          intro p hp
          rcases List.mem_cons.mp hp with h | h
          · rw [h]
            exact Built.wrapB _ _ (Built.validatedB _ _)
          · rw [List.mem_singleton.mp h]
            exact Built.optB _ (Built.wrapB _ _ (Built.validatedB _ _)))
        (by decide))
      (fun l => rfl) (fun l h => Value.noConfusion h))
    (.arr [.obj [("a", .str "x")]]) (.obj [("a", .str "x"), ("b", .undefined)]) [] [] [] rfl

/-- C5: an embedded-document contract constructed without an explicit codec
captures the process-wide default at construction (JS evaluates the default
parameter and destructures it when `document(...)` is called), so a later
`SetDefaultSerializationConfig` replaces the global state without changing the
serializer or deserializer the already-constructed contract uses; a contract
constructed after the replacement picks up the new codec. -/
theorem c5_default_config_captured_at_construction (schema : Bound)
    (g newCfg : SerializationConfig) (v w : Value) (s : List String) :
    (documentUsingDefault schema none g = document schema g)
    ∧ (SetDefaultSerializationConfig newCfg g = newCfg)
    ∧ ((documentUsingDefault schema none g).transform v s =
        match schema.transform v (s ++ ["document:transform"]) with
        | .error e => .error e
        | .ok lit => .ok (g.serializer lit))
    ∧ ((documentUsingDefault schema none g).restore w s =
        match g.deserializer w with
        | .error e => .error e
        | .ok lit => schema.restore lit (s ++ ["document:restore"]))
    ∧ (documentUsingDefault schema none (SetDefaultSerializationConfig newCfg g) =
        document schema newCfg) :=
  ⟨rfl, rfl, rfl, rfl, rfl⟩

/-- C6 counterexample: `literal(v)` does not accept every value deeply equal
to `v`.  For the composite constant `{abc: 123}` (heap id 0), a distinct but
structurally equal object (heap id 1) — equal after erasing heap identities —
is rejected by both `transform` and `restore` with a `Failed validation`
Transformation Failure, because the predicate is JS strict equality
(reference equality on composites). -/
theorem c6_literal_deep_equality_counterexample :
    (eraseIds (.vobj 1 [("abc", .vnum 123)]) = eraseIds (.vobj 0 [("abc", .vnum 123)]))
    ∧ ((literal (.vobj 0 [("abc", .vnum 123)])).transform (.vobj 1 [("abc", .vnum 123)]) [] =
        .error ⟨"Failed validation", "literal(!!)", some (.vobj 1 [("abc", .vnum 123)])⟩)
    ∧ ((literal (.vobj 0 [("abc", .vnum 123)])).restore (.vobj 1 [("abc", .vnum 123)]) [] =
        .error ⟨"Failed validation", "literal(!!)", some .vfun⟩) :=
  ⟨rfl, rfl, rfl⟩

/-- C6 (amended): `literal(v)` accepts exactly the values strictly equal
(`===`) to `v` — by value for primitive constants, by reference identity for
composite constants, so a distinct but structurally equal object is rejected.
Accepted values pass through unchanged; every other value raises a
`Failed validation` Transformation Failure in both directions (the restore
error path records the function-offender of the `validated` slip). -/
theorem c6_literal_strict_equality (value v : HVal) (s : List String) :
    (jsStrictEq v value = true →
      (literal value).transform v s = .ok v ∧ (literal value).restore v s = .ok v)
    ∧ (jsStrictEq v value = false →
      (literal value).transform v s =
        .error ⟨"Failed validation", render (s ++ ["literal"]), some v⟩
      ∧ (literal value).restore v s =
        .error ⟨"Failed validation", render (s ++ ["literal"]), some .vfun⟩) := by
  constructor
  · intro h
    constructor
    · simp only [literal, stackwrapH, validatedH]
      rw [if_pos h]
    · simp only [literal, stackwrapH, validatedH]
      rw [if_pos h]
  · intro h
    have h' : ¬(jsStrictEq v value = true) := by
      rw [h]
      exact Bool.false_ne_true
    constructor
    · simp only [literal, stackwrapH, validatedH]
      rw [if_neg h']
    · simp only [literal, stackwrapH, validatedH]
      rw [if_neg h']

/-- C6 witness: a strictly equal primitive passes through; a distinct
composite is rejected. -/
theorem c6_literal_strict_equality_witness :
    ((literal (.vstr "One")).transform (.vstr "One") [] = .ok (.vstr "One")
      ∧ (literal (.vstr "One")).restore (.vstr "One") [] = .ok (.vstr "One"))
    ∧ ((literal (.varr 0 [])).transform (.varr 1 []) [] =
        .error ⟨"Failed validation", "literal(!!)", some (.varr 1 [])⟩
      ∧ (literal (.varr 0 [])).restore (.varr 1 []) [] =
        .error ⟨"Failed validation", "literal(!!)", some .vfun⟩) :=
  ⟨(c6_literal_strict_equality (.vstr "One") (.vstr "One") []).1 rfl,
   (c6_literal_strict_equality (.varr 0 []) (.varr 1 []) []).2 rfl⟩

/-- C7: the embedded-document combinator is exactly the composition of the
codec with the inner contract: `transform` runs the inner transform under the
`document:transform` tag and then the serializer; `restore` runs the
deserializer and then the inner restore under the `document:restore` tag. -/
theorem c7_document_codec_composition (inner : Bound) (cfg : SerializationConfig)
    (v w : Value) (s : List String) :
    ((document inner cfg).transform v s =
      match inner.transform v (s ++ ["document:transform"]) with
      | .error e => .error e
      | .ok lit => .ok (cfg.serializer lit))
    ∧ ((document inner cfg).restore w s =
      match cfg.deserializer w with
      | .error e => .error e
      | .ok lit => inner.restore lit (s ++ ["document:restore"])) :=
  ⟨rfl, rfl⟩

/-- C8: a restore failure inside an array element nested under an object key
surfaces unchanged to the outer caller, and its location trail is the
accumulated stack rendered with ` -> ` separators and the `(!!)` terminator,
with the object key tag preceding the array index tag. -/
theorem c8_nested_failure_trail (item : Bound) (k : String) (vs : List Value) (i : Nat)
    (vi : Value) (s : List String) (m loc : String) (off : Option Value)
    (hsx : stackExtending item)
    (hget : vs.get? i = some vi)
    (hpre : ∀ j vj, j < i → vs.get? j = some vj →
      ∃ r, item.restore vj ((s ++ ["object:restore['" ++ k ++ "']"]) ++
        ["array:restore[" ++ toString j ++ "]"]) = .ok r)
    (hfail : item.restore vi ((s ++ ["object:restore['" ++ k ++ "']"]) ++
      ["array:restore[" ++ toString i ++ "]"]) = .error (.tfail m loc off)) :
    (object [(k, array item)]).restore (.obj [(k, .arr vs)]) s = .error (.tfail m loc off)
    ∧ ∃ rest, loc = render (s ++ ["object:restore['" ++ k ++ "']",
        "array:restore[" ++ toString i ++ "]"] ++ rest) := by
  constructor
  · simp only [object, shapeBad_obj, Bool.false_eq_true, if_false]
    have hreq : requiredMissing [(k, array item)] (.obj [(k, .arr vs)]) = none := by
      simp only [requiredMissing]
      rw [List.find?_eq_none.mpr ?_]
      intro p hp
      rw [List.mem_singleton.mp hp]
      have hhas : jsHas (.obj [(k, .arr vs)]) k = true := by
        simp [jsHas, List.lookup]
      simp [hhas]
    rw [hreq]
    simp only [objectRestoreFields, mapME]
    have hg : jsGet (.obj [(k, .arr vs)]) k = .arr vs := by
      simp [jsGet, List.lookup]
    rw [hg]
    simp only [array]
    have herr := mapIdxME_error_at
      (fun j e => item.restore e ((s ++ ["object:restore['" ++ k ++ "']"]) ++
        ["array:restore[" ++ toString j ++ "]"]))
      vs 0 i vi (.tfail m loc off) hget
      (fun j vj hj hvj => by
        rcases hpre j vj hj hvj with ⟨r, hr⟩
        exact ⟨r, by rw [Nat.zero_add]; exact hr⟩)
      (by rw [Nat.zero_add]; exact hfail)
    rw [herr]
  · rcases hsx vi _ m loc off hfail with ⟨rest, hrest⟩
    refine ⟨rest, ?_⟩
    rw [hrest]
    congr 1
    simp

/-- C8 witness: failing second element of an array under the object key
`remote`; the surfaced Transformation Failure's trail shows the object key
tag, then the array index tag, then the primitive's label. -/
theorem c8_nested_failure_trail_witness :
    ((object [("remote", array number)]).restore (.obj [("remote", .arr [.num 1, .str "x"])]) [] =
      .error (.tfail "expected 'number', received 'function'"
        "object:restore['remote'] -> array:restore[1] -> number(!!)" (some .jsFunction)))
    ∧ ∃ rest, "object:restore['remote'] -> array:restore[1] -> number(!!)" =
        render ([] ++ ["object:restore['remote']", "array:restore[1]"] ++ rest) :=
  c8_nested_failure_trail number "remote" [.num 1, .str "x"] 1 (.str "x") []
    "expected 'number', received 'function'"
    "object:restore['remote'] -> array:restore[1] -> number(!!)" (some .jsFunction)
    number_stack_extending rfl
    (fun j vj hj hvj => by
      have hj0 : j = 0 := Nat.lt_one_iff.mp hj
      subst hj0
      have : vj = .num 1 := by simpa using hvj.symm
      subst this
      exact ⟨.num 1, rfl⟩)
    rfl

/-- C9: object `restore` validates the container shape first: for `null`, an
array, or any input whose JS `typeof` is not `object`, it raises a
`Not an object. Expected 'object', got '<kind>'` Transformation Failure
reporting the observed kind (`'array'` for arrays, otherwise the JS `typeof`,
which is `'object'` for `null`), whatever the declared fields are — so no
child contract's restore is ever consulted. -/
theorem c9_object_restore_shape_guard (fields : List (String × Bound)) (v : Value)
    (s : List String) (h : jsTypeof v ≠ "object" ∨ isArr v = true ∨ v = .null) :
    (object fields).restore v s =
      .error (.tfail ("Not an object. Expected 'object', got '" ++ observedKind v ++ "'")
        (render (s ++ ["object:transform"])) none) := by
  have hb : shapeBad v = true := by
    rcases h with h | h | h
    · simp [shapeBad, beq_eq_false_iff_ne.mpr h]
    · simp [shapeBad, h]
    · subst h
      rfl
  simp only [object, hb, if_true]

/-- C9 witness: a number input is rejected with the observed kind `'number'`
before the declared field's contract is consulted. -/
theorem c9_object_restore_shape_guard_witness :
    (object [("a", string)]).restore (.num 42) [] =
      .error (.tfail "Not an object. Expected 'object', got 'number'" "object:transform(!!)" none) :=
  c9_object_restore_shape_guard [("a", string)] (.num 42) [] (Or.inl (by decide))

/-- Record restore with identity (any) key and value contracts succeeds on
every input with entries, returning the entries re-assembled. -/
theorem record_any_restore_entries (v : Value) (ents : List (String × Value)) (s : List String)
    (h : jsEntries v = .ok ents) :
    (record any any).restore v s = .ok (.obj (fromEntries ents)) := by
  have hmap := mapME_congr_id (fun (p : String × Value) =>
      (match any.restore (.str p.1) (s ++ ["record:restore['key of " ++ p.1 ++ "']"]) with
        | .error e => .error e
        | .ok kv =>
          match any.restore p.2 (s ++ ["record:restore[value of '" ++ p.1 ++ "']"]) with
          | .error e => .error e
          | .ok vv => .ok (jsToPropKey kv, vv) : Except Err (String × Value))) ents
    (fun a _ => rfl)
  simp only [record, h, hmap]

/-- Errors of the identity-record restore can only come from the entries
conversion itself. -/
theorem record_any_restore_err (v : Value) (s : List String) (e : Err)
    (h : (record any any).restore v s = .error e) : jsEntries v = .error e := by
  simp only [record] at h
  split at h
  · next e' he =>
    cases h
    exact he
  · next ents hents =>
    have hmap := mapME_congr_id (fun (p : String × Value) =>
        (match any.restore (.str p.1) (s ++ ["record:restore['key of " ++ p.1 ++ "']"]) with
          | .error e => .error e
          | .ok kv =>
            match any.restore p.2 (s ++ ["record:restore[value of '" ++ p.1 ++ "']"]) with
            | .error e => .error e
            | .ok vv => .ok (jsToPropKey kv, vv) : Except Err (String × Value))) ents
      (fun a _ => rfl)
    rw [hmap] at h
    cases h

/-- C10: the record combinator's `restore` performs no container-shape
validation of its own.  With identity child contracts it succeeds on every
non-null, non-undefined literal by iterating the input's enumerable entries —
for a string input this processes each character position as a key/value entry
through the key and value contracts — and the only failure it can produce of
its own is the native `TypeError` of `Object.entries` on `null`/`undefined`,
never a `Not an object`-style Transformation Failure. -/
theorem c10_record_restore_no_shape_check :
    (∀ (v : Value) (s : List String), v ≠ .null → v ≠ .undefined →
      ∃ ents, jsEntries v = .ok ents ∧ (record any any).restore v s = .ok (.obj (fromEntries ents)))
    ∧ ((record string string).restore (.str "ab") [] =
        .ok (.obj [("0", .str "a"), ("1", .str "b")]))
    ∧ (∀ (v : Value) (s : List String) (e : Err),
      (record any any).restore v s = .error e → ∃ msg, e = .jsErr msg) := by
  refine ⟨?_, rfl, ?_⟩
  · intro v s h1 h2
    cases v
    case null => exact absurd rfl h1
    case undefined => exact absurd rfl h2
    all_goals exact ⟨_, rfl, record_any_restore_entries _ _ s rfl⟩
  · intro v s e h
    have h2 := record_any_restore_err v s e h
    cases v <;> simp only [jsEntries] at h2
    case null =>
      cases h2
      exact ⟨_, rfl⟩
    case undefined =>
      cases h2
      exact ⟨_, rfl⟩
    all_goals cases h2

/-- C10 witness: a plain number input is not rejected — its (empty) entry list
is processed and an empty object restored. -/
theorem c10_record_restore_no_shape_check_witness :
    ∃ ents, jsEntries (.num 42) = .ok ents
      ∧ (record any any).restore (.num 42) [] = .ok (.obj (fromEntries ents)) :=
  c10_record_restore_no_shape_check.1 (.num 42) [] (fun h => nomatch h) (fun h => nomatch h)

end TsBinding
